import Mathlib

/-!
Verification of the Malaya model-cache manager
(`malaya/function/__init__.py`).

The filesystem is modelled as an association list from path strings to
file contents.  Python dictionaries (the manifest `file` and the remote
map `s3_file`) are association lists from key strings to value strings,
in insertion order.  A run of `check_file` is modelled as a function from
an initial filesystem to a `RunResult`: the final filesystem, the list of
observable events (directory deletion, network fetches, the version
marker write) in the order they happen, and an optional raised error
(`none` means the call returned normally).  A network is a function from
a resolved URL to `Option String`: `some content` is a successful GET,
`none` is any transport failure (modelled after `download_file`, whose
failures all surface as raised exceptions).
-/

namespace Malaya

/-- A filesystem: association list from file path to file content.
Directories are implicit: a directory "exists" when some file lives
under it. -/
abbrev FS := List (String × String)

/-- Boolean infix test on character lists. -/
def hasSub (needle : List Char) : List Char → Bool
  | [] => needle.isEmpty
  | c :: t => needle.isPrefixOf (c :: t) || hasSub needle t

/-- Python substring containment: `needle in hay`. -/
def substrOf (needle hay : String) : Bool :=
  hasSub needle.toList hay.toList

/-- Read a file: `open(p).read()` succeeds iff the path maps to a content. -/
def lookupFS (fs : FS) (p : String) : Option String :=
  fs.lookup p

/-- Python `os.path.isfile`. -/
def isfile (fs : FS) (p : String) : Bool :=
  (lookupFS fs p).isSome

/-- Python `os.path.exists`: a file with that path, or a directory, i.e.
some file strictly below the path. -/
def existsPath (fs : FS) (p : String) : Bool :=
  isfile fs p || fs.any (fun e => (p ++ "/").toList.isPrefixOf e.1.toList)

/-- `open(p, "w"); write(c)`: replace or create the file at `p`. -/
def writeFS (fs : FS) (p c : String) : FS :=
  (p, c) :: fs.filter (fun e => !(e.1 == p))

/-- Modelled from the spec: `_delete_folder` is imported from the package
root, which is outside the sources given here; the spec describes it as a
generic "delete directory recursively" primitive.  It removes every file
at or below `dir`. -/
def delete_folder (fs : FS) (dir : String) : FS :=
  fs.filter (fun e => !((dir ++ "/").toList.isPrefixOf e.1.toList || e.1 == dir))

/-- Python `os.path.dirname` (posixpath): everything up to and including
the last slash, with trailing slashes stripped unless the head is all
slashes. -/
def dirname (p : String) : String :=
  let head := (p.toList.reverse.dropWhile (fun c => !(c == '/'))).reverse
  if !head.isEmpty && !(head.all (fun c => c == '/')) then
    String.mk ((head.reverse.dropWhile (fun c => c == '/')).reverse)
  else String.mk head

/-- Python `"/".join(p.split("/")[:-1])` from the `validate = False`
branch of `check_file`: the prefix of `p` strictly before its last
slash, empty when there is no slash. -/
def join_dirname (p : String) : String :=
  String.mk ((p.toList.reverse.dropWhile (fun c => !(c == '/'))).reverse.dropLast)

/-- The fixed base URL of the remote blob store in `download_file`. -/
def base_url : String := "https://f000.backblazeb2.com/file/malaya-model/"

/-- URL resolution in `download_file`: `if "http" in url` fetch the url
as given, otherwise prepend the fixed base URL. -/
def resolve_url (url : String) : String :=
  if substrOf "http" url then url else base_url ++ url

/-- Observable side effects of a `check_file` run, in order. -/
inductive Event where
  | delete (dir : String)
  | fetch (key url path : String)
  | writeMarker (path content : String)
deriving DecidableEq

/-- Whether an event is the version-marker write. -/
def Event.isWriteMarker : Event → Bool
  | .writeMarker _ _ => true
  | _ => false

/-- Whether an event is a network fetch. -/
def Event.isFetch : Event → Bool
  | .fetch _ _ _ => true
  | _ => false

/-- Errors a run can raise.  `keyError` is a Python `KeyError` on a
missing dictionary key; `downloadFailure` is any exception out of
`download_file`; `cacheUnavailable` is the exception raised by the
`validate = False` branch, carrying the path it names. -/
inductive Err where
  | keyError (k : String)
  | downloadFailure (url : String)
  | cacheUnavailable (path : String)
deriving DecidableEq

/-- Result of a run: final filesystem, events in order, optional raised
error (`none` = returned normally). -/
structure RunResult where
  fs : FS
  events : List Event
  err : Option Err
deriving DecidableEq

/-- `download_file(url, filename)`: resolve the locator, GET it, write
the body to `filename`.  A `none` answer from the network is any of the
failure modes (connection error, missing content-length, disk error),
all of which raise. -/
def download_file (net : String → Option String) (url filename : String)
    (fs : FS) : RunResult :=
  match net (resolve_url url) with
  | none => ⟨fs, [], some (.downloadFailure (resolve_url url))⟩
  | some content => ⟨writeFS fs filename content, [], none⟩

/-- `check_available(file)`: every key either contains "version" as a
substring (skipped) or its path is a file on disk. -/
def check_available (fs : FS) (file : List (String × String)) : Bool :=
  file.all (fun e => substrOf "version" e.1 || isfile fs e.2)

/-- The download loop of `check_file` (the body under `if download:`):
for each key in manifest order, skip keys containing "version", skip
items already on disk, otherwise look up the remote locator
(`s3_file[key]`, KeyError when absent) and download.  The first raised
error aborts the loop. -/
def download_loop (net : String → Option String)
    (s3_file : List (String × String)) :
    List (String × String) → FS → RunResult
  | [], fs => ⟨fs, [], none⟩
  | (key, item) :: rest, fs =>
    if substrOf "version" key then download_loop net s3_file rest fs
    else if isfile fs item then download_loop net s3_file rest fs
    else
      match s3_file.lookup key with
      | none => ⟨fs, [], some (.keyError key)⟩
      | some url =>
        let d := download_file net url item fs
        match d.err with
        | some e => ⟨d.fs, d.events, some e⟩
        | none =>
          let r := download_loop net s3_file rest d.fs
          ⟨r.fs, .fetch key url item :: r.events, r.err⟩

/-- `check_file(file, s3_file, validate)`.

With `validate = True`: compute `base_location = dirname(file["model"])`
and the marker path `base_location + "/version"`.  If the marker is a
file, read it; if its content does not contain `file["version"]`, delete
the cache directory and set the download flag; otherwise scan every item
of the manifest (including the version entry, whose value is the version
string itself) with `os.path.exists` and set the flag if any is absent.
If the marker is not a file, set the flag.  When the flag is set, run the
download loop and finally write `file["version"]` into the marker.

With `validate = False`: when `check_available` fails, raise the
cache-unavailable error naming `"/".join(file["model"].split("/")[:-1])`;
otherwise do nothing. -/
def check_file (net : String → Option String)
    (file s3_file : List (String × String)) (validate : Bool)
    (fs : FS) : RunResult :=
  if validate then
    match file.lookup "model" with
    | none => ⟨fs, [], some (.keyError "model")⟩
    | some model =>
      let base_location := dirname model
      let version := base_location ++ "/version"
      if isfile fs version then
        let content := (lookupFS fs version).getD ""
        match file.lookup "version" with
        | none => ⟨fs, [], some (.keyError "version")⟩
        | some ver =>
          if substrOf ver content then
            if file.any (fun e => !(existsPath fs e.2)) then
              let r := download_loop net s3_file file fs
              match r.err with
              | some _ => r
              | none =>
                ⟨writeFS r.fs version ver,
                 r.events ++ [.writeMarker version ver], none⟩
            else ⟨fs, [], none⟩
          else
            let fs1 := delete_folder fs base_location
            let r := download_loop net s3_file file fs1
            match r.err with
            | some e => ⟨r.fs, .delete base_location :: r.events, some e⟩
            | none =>
              ⟨writeFS r.fs version ver,
               .delete base_location :: (r.events ++ [.writeMarker version ver]),
               none⟩
      else
        let r := download_loop net s3_file file fs
        match r.err with
        | some _ => r
        | none =>
          match file.lookup "version" with
          | none => ⟨r.fs, r.events, some (.keyError "version")⟩
          | some ver =>
            ⟨writeFS r.fs version ver,
             r.events ++ [.writeMarker version ver], none⟩
  else
    if check_available fs file then ⟨fs, [], none⟩
    else
      match file.lookup "model" with
      | none => ⟨fs, [], some (.keyError "model")⟩
      | some model => ⟨fs, [], some (.cacheUnavailable (join_dirname model))⟩

/-- `add_neutral(x, alpha)` over exact rationals: per row, map each entry
through `max (a - 1/n) (alpha * a) / (1/n)` and append one column making
the row sum to 1.  `ncols` is `x.shape[1]`. -/
def add_neutral (ncols : Nat) (alpha : ℚ) (x : List (List ℚ)) :
    List (List ℚ) :=
  let divide : ℚ := 1 / (ncols : ℚ)
  x.map (fun row =>
    let x_divide := row.map (fun a => max (a - divide) (alpha * a) / divide)
    x_divide ++ [1 - x_divide.sum])

/-! ### Helper lemmas -/

theorem isPrefixOf_self (l : List Char) : l.isPrefixOf l = true := by
  induction l with
  | nil => rfl
  | cons c t ih => simp [List.isPrefixOf, ih]

theorem hasSub_self (l : List Char) : hasSub l l = true := by
  cases l with
  | nil => rfl
  | cons c t => simp [hasSub, isPrefixOf_self]

theorem substrOf_self (s : String) : substrOf s s = true :=
  hasSub_self s.toList

theorem lookupFS_writeFS_self (fs : FS) (p c : String) :
    lookupFS (writeFS fs p c) p = some c := by
  simp [lookupFS, writeFS, List.lookup]

theorem lookup_filter_ne (fs : FS) (p q : String) (h : q ≠ p) :
    (fs.filter (fun e => !(e.1 == p))).lookup q = fs.lookup q := by
  induction fs with
  | nil => rfl
  | cons e t ih =>
    by_cases hk : e.1 = p
    · simp [List.filter, hk, List.lookup, ih,
        show (q == p) = false by simp [h]]
    · simp only [List.filter, List.lookup, show (e.1 == p) = false by simp [hk],
        Bool.not_false]
      cases hqe : q == e.1 <;> simp [List.lookup, hqe, ih]

theorem lookupFS_writeFS_ne (fs : FS) (p q c : String) (h : q ≠ p) :
    lookupFS (writeFS fs p c) q = lookupFS fs q := by
  simp [lookupFS, writeFS, List.lookup, show (q == p) = false by simp [h],
    lookup_filter_ne fs p q h]

theorem isfile_writeFS_mono (fs : FS) (p q c : String)
    (h : isfile fs q = true) : isfile (writeFS fs p c) q = true := by
  by_cases hqp : q = p
  · subst hqp; simp [isfile, lookupFS_writeFS_self]
  · simpa [isfile, lookupFS_writeFS_ne fs p q c hqp] using h

theorem isfile_writeFS_ne (fs : FS) (p q c : String) (h : q ≠ p) :
    isfile (writeFS fs p c) q = isfile fs q := by
  simp [isfile, lookupFS_writeFS_ne fs p q c h]

/-! ### Download-loop invariants -/

/-- Every event the download loop emits is a fetch. -/
theorem download_loop_events_fetch (net : String → Option String)
    (s3_file : List (String × String)) :
    ∀ (items : List (String × String)) (fs : FS),
      ∀ e ∈ (download_loop net s3_file items fs).events, e.isFetch = true := by
  intro items
  induction items with
  | nil => intro fs e he; simp [download_loop] at he
  | cons hd rest ih =>
    intro fs e he
    obtain ⟨key, item⟩ := hd
    simp only [download_loop] at he
    by_cases hv : substrOf "version" key = true
    · rw [if_pos hv] at he; exact ih fs e he
    · rw [if_neg hv] at he
      by_cases hf : isfile fs item = true
      · rw [if_pos hf] at he; exact ih fs e he
      · rw [if_neg hf] at he
        cases hs : s3_file.lookup key with
        | none => rw [hs] at he; simp at he
        | some url =>
          rw [hs] at he
          simp only [download_file] at he
          cases hn : net (resolve_url url) with
          | none => rw [hn] at he; simp at he
          | some content =>
            rw [hn] at he
            simp only [List.mem_cons] at he
            rcases he with rfl | he
            · rfl
            · exact ih _ e he

/-- The loop never deletes a file: files present stay present. -/
theorem download_loop_mono (net : String → Option String)
    (s3_file : List (String × String)) :
    ∀ (items : List (String × String)) (fs : FS) (p : String),
      isfile fs p = true →
      isfile (download_loop net s3_file items fs).fs p = true := by
  intro items
  induction items with
  | nil => intro fs p h; simpa [download_loop] using h
  | cons hd rest ih =>
    intro fs p h
    obtain ⟨key, item⟩ := hd
    simp only [download_loop]
    by_cases hv : substrOf "version" key = true
    · rw [if_pos hv]; exact ih fs p h
    · rw [if_neg hv]
      by_cases hf : isfile fs item = true
      · rw [if_pos hf]; exact ih fs p h
      · rw [if_neg hf]
        cases hs : s3_file.lookup key with
        | none => simpa using h
        | some url =>
          simp only [download_file]
          cases hn : net (resolve_url url) with
          | none => simpa using h
          | some content =>
            exact ih _ p (isfile_writeFS_mono fs item p content h)

/-- A file already on disk is never fetched by the loop. -/
theorem download_loop_no_fetch_of_present (net : String → Option String)
    (s3_file : List (String × String)) :
    ∀ (items : List (String × String)) (fs : FS) (i : String),
      isfile fs i = true →
      ∀ k u, Event.fetch k u i ∉ (download_loop net s3_file items fs).events := by
  intro items
  induction items with
  | nil => intro fs i h k u hmem; simp [download_loop] at hmem
  | cons hd rest ih =>
    intro fs i h k u hmem
    obtain ⟨key, item⟩ := hd
    simp only [download_loop] at hmem
    by_cases hv : substrOf "version" key = true
    · rw [if_pos hv] at hmem; exact ih fs i h k u hmem
    · rw [if_neg hv] at hmem
      by_cases hf : isfile fs item = true
      · rw [if_pos hf] at hmem; exact ih fs i h k u hmem
      · rw [if_neg hf] at hmem
        cases hs : s3_file.lookup key with
        | none => rw [hs] at hmem; simp at hmem
        | some url =>
          rw [hs] at hmem
          simp only [download_file] at hmem
          cases hn : net (resolve_url url) with
          | none => rw [hn] at hmem; simp at hmem
          | some content =>
            rw [hn] at hmem
            simp only [List.mem_cons, Event.fetch.injEq] at hmem
            rcases hmem with ⟨_, _, rfl⟩ | hmem
            · rw [h] at hf; exact hf rfl
            · exact ih _ i (isfile_writeFS_mono fs item i content h) k u hmem

/-- When the loop finishes without raising, every non-version key whose
item was absent at loop entry has a fetch event; needs the item paths of
the manifest to be pairwise distinct. -/
theorem download_loop_fetches_missing (net : String → Option String)
    (s3_file : List (String × String)) :
    ∀ (items : List (String × String)) (fs : FS),
      (download_loop net s3_file items fs).err = none →
      (items.map Prod.snd).Nodup →
      ∀ k i, (k, i) ∈ items → substrOf "version" k = false →
        isfile fs i = false →
        ∃ u, Event.fetch k u i ∈ (download_loop net s3_file items fs).events := by
  intro items
  induction items with
  | nil => intro fs _ _ k i hmem; simp at hmem
  | cons hd rest ih =>
    intro fs herr hnd k i hmem hk hi
    obtain ⟨key, item⟩ := hd
    simp only [List.map_cons, List.nodup_cons] at hnd
    obtain ⟨hnotin, hndr⟩ := hnd
    simp only [List.mem_cons, Prod.mk.injEq] at hmem
    simp only [download_loop] at herr ⊢
    by_cases hv : substrOf "version" key = true
    · rw [if_pos hv] at herr ⊢
      rcases hmem with ⟨rfl, rfl⟩ | hmem
      · rw [hv] at hk; exact absurd hk (by simp)
      · exact ih fs herr hndr k i hmem hk hi
    · rw [if_neg hv] at herr ⊢
      by_cases hf : isfile fs item = true
      · rw [if_pos hf] at herr ⊢
        rcases hmem with ⟨rfl, rfl⟩ | hmem
        · rw [hf] at hi; exact absurd hi (by simp)
        · exact ih fs herr hndr k i hmem hk hi
      · rw [if_neg hf] at herr ⊢
        cases hs : s3_file.lookup key with
        | none => rw [hs] at herr; simp at herr
        | some url =>
          rw [hs] at herr
          simp only [download_file] at herr ⊢
          cases hn : net (resolve_url url) with
          | none => rw [hn] at herr; simp at herr
          | some content =>
            rw [hn] at herr
            simp only at herr ⊢
            rcases hmem with ⟨rfl, rfl⟩ | hmem
            · exact ⟨url, by simp⟩
            · have hii : i ≠ item := by
                intro hcon
                exact hnotin (hcon ▸ (List.mem_map.mpr ⟨(k, i), hmem, rfl⟩))
              have hi2 : isfile (writeFS fs item content) i = false := by
                rw [isfile_writeFS_ne fs item i content hii]; exact hi
              obtain ⟨u, hu⟩ := ih (writeFS fs item content) herr hndr k i hmem hk hi2
              exact ⟨u, List.mem_cons_of_mem _ hu⟩

/-! ### Branch equations for `check_file` -/

/-- Validated run, marker not a file: run the loop over the whole
manifest, then write the marker. -/
theorem check_file_no_marker_eq (net : String → Option String)
    (file s3_file : List (String × String)) (fs : FS) (model : String)
    (hm : file.lookup "model" = some model)
    (hmk : isfile fs (dirname model ++ "/version") = false) :
    check_file net file s3_file true fs =
      (match (download_loop net s3_file file fs).err with
       | some _ => download_loop net s3_file file fs
       | none =>
         match file.lookup "version" with
         | none => ⟨(download_loop net s3_file file fs).fs,
                    (download_loop net s3_file file fs).events,
                    some (.keyError "version")⟩
         | some ver =>
           ⟨writeFS (download_loop net s3_file file fs).fs (dirname model ++ "/version") ver,
            (download_loop net s3_file file fs).events
              ++ [.writeMarker (dirname model ++ "/version") ver], none⟩) := by
  simp only [check_file, hm, if_true, hmk, Bool.false_eq_true, if_false]

/-- Validated run, marker present and containing the expected version:
scan every manifest item with `os.path.exists`, download when any is
absent, otherwise do nothing. -/
theorem check_file_valid_marker_eq (net : String → Option String)
    (file s3_file : List (String × String)) (fs : FS) (model ver content : String)
    (hm : file.lookup "model" = some model)
    (hv : file.lookup "version" = some ver)
    (hmk : lookupFS fs (dirname model ++ "/version") = some content)
    (hc : substrOf ver content = true) :
    check_file net file s3_file true fs =
      (if file.any (fun e => !(existsPath fs e.2)) then
        match (download_loop net s3_file file fs).err with
        | some _ => download_loop net s3_file file fs
        | none =>
          ⟨writeFS (download_loop net s3_file file fs).fs (dirname model ++ "/version") ver,
           (download_loop net s3_file file fs).events
             ++ [.writeMarker (dirname model ++ "/version") ver], none⟩
       else ⟨fs, [], none⟩) := by
  simp only [check_file, hm, if_true, isfile, hmk, Option.isSome_some, hv,
    Option.getD_some, hc]

/-- Validated run, marker present but stale: delete the cache directory,
run the loop on the pruned filesystem, then write the marker. -/
theorem check_file_stale_marker_eq (net : String → Option String)
    (file s3_file : List (String × String)) (fs : FS) (model ver content : String)
    (hm : file.lookup "model" = some model)
    (hv : file.lookup "version" = some ver)
    (hmk : lookupFS fs (dirname model ++ "/version") = some content)
    (hc : substrOf ver content = false) :
    check_file net file s3_file true fs =
      (match (download_loop net s3_file file (delete_folder fs (dirname model))).err with
       | some e => ⟨(download_loop net s3_file file (delete_folder fs (dirname model))).fs,
                    .delete (dirname model)
                      :: (download_loop net s3_file file (delete_folder fs (dirname model))).events,
                    some e⟩
       | none =>
         ⟨writeFS (download_loop net s3_file file (delete_folder fs (dirname model))).fs
            (dirname model ++ "/version") ver,
          .delete (dirname model)
            :: ((download_loop net s3_file file (delete_folder fs (dirname model))).events
                ++ [.writeMarker (dirname model ++ "/version") ver]), none⟩) := by
  simp only [check_file, hm, if_true, isfile, hmk, Option.isSome_some, hv,
    Option.getD_some, hc, Bool.false_eq_true, if_false]

/-- Non-validated run: raise iff `check_available` fails. -/
theorem check_file_novalidate_eq (net : String → Option String)
    (file s3_file : List (String × String)) (fs : FS) :
    check_file net file s3_file false fs =
      (if check_available fs file then ⟨fs, [], none⟩
       else
        match file.lookup "model" with
        | none => ⟨fs, [], some (.keyError "model")⟩
        | some model => ⟨fs, [], some (.cacheUnavailable (join_dirname model))⟩) := by
  simp only [check_file, Bool.false_eq_true, if_false]

/-- `check_available` fails exactly when some key not containing
"version" maps to an absent file. -/
theorem check_available_eq_false_iff (fs : FS) (file : List (String × String)) :
    check_available fs file = false ↔
      ∃ p ∈ file, substrOf "version" p.1 = false ∧ isfile fs p.2 = false := by
  simp [check_available, List.all_eq_false]

/-- No marker, loop raised: the run is the aborted loop itself. -/
theorem check_file_no_marker_err (net : String → Option String)
    (file s3_file : List (String × String)) (fs : FS) (model : String) (e : Err)
    (hm : file.lookup "model" = some model)
    (hmk : isfile fs (dirname model ++ "/version") = false)
    (herr : (download_loop net s3_file file fs).err = some e) :
    check_file net file s3_file true fs = download_loop net s3_file file fs := by
  rw [check_file_no_marker_eq net file s3_file fs model hm hmk, herr]

/-- No marker, loop finished: download results plus the marker write. -/
theorem check_file_no_marker_ok (net : String → Option String)
    (file s3_file : List (String × String)) (fs : FS) (model ver : String)
    (hm : file.lookup "model" = some model)
    (hv : file.lookup "version" = some ver)
    (hmk : isfile fs (dirname model ++ "/version") = false)
    (herr : (download_loop net s3_file file fs).err = none) :
    check_file net file s3_file true fs =
      ⟨writeFS (download_loop net s3_file file fs).fs (dirname model ++ "/version") ver,
       (download_loop net s3_file file fs).events
         ++ [.writeMarker (dirname model ++ "/version") ver], none⟩ := by
  rw [check_file_no_marker_eq net file s3_file fs model hm hmk, herr, hv]

/-- No marker, loop finished, but the manifest has no "version" key. -/
theorem check_file_no_marker_keyerr (net : String → Option String)
    (file s3_file : List (String × String)) (fs : FS) (model : String)
    (hm : file.lookup "model" = some model)
    (hmk : isfile fs (dirname model ++ "/version") = false)
    (herr : (download_loop net s3_file file fs).err = none)
    (hlv : file.lookup "version" = none) :
    check_file net file s3_file true fs =
      ⟨(download_loop net s3_file file fs).fs,
       (download_loop net s3_file file fs).events, some (.keyError "version")⟩ := by
  rw [check_file_no_marker_eq net file s3_file fs model hm hmk, herr, hlv]

/-- Marker valid and every scanned item present: no effects at all. -/
theorem check_file_valid_marker_noop (net : String → Option String)
    (file s3_file : List (String × String)) (fs : FS) (model ver content : String)
    (hm : file.lookup "model" = some model)
    (hv : file.lookup "version" = some ver)
    (hmk : lookupFS fs (dirname model ++ "/version") = some content)
    (hc : substrOf ver content = true)
    (hany : file.any (fun e => !(existsPath fs e.2)) = false) :
    check_file net file s3_file true fs = ⟨fs, [], none⟩ := by
  rw [check_file_valid_marker_eq net file s3_file fs model ver content hm hv hmk hc]
  simp [hany]

/-- Marker valid, some item absent, loop raised. -/
theorem check_file_valid_marker_err (net : String → Option String)
    (file s3_file : List (String × String)) (fs : FS) (model ver content : String)
    (e : Err)
    (hm : file.lookup "model" = some model)
    (hv : file.lookup "version" = some ver)
    (hmk : lookupFS fs (dirname model ++ "/version") = some content)
    (hc : substrOf ver content = true)
    (hany : file.any (fun e => !(existsPath fs e.2)) = true)
    (herr : (download_loop net s3_file file fs).err = some e) :
    check_file net file s3_file true fs = download_loop net s3_file file fs := by
  rw [check_file_valid_marker_eq net file s3_file fs model ver content hm hv hmk hc]
  simp [hany, herr]

/-- Marker valid, some item absent, loop finished: downloads plus the
marker write. -/
theorem check_file_valid_marker_ok (net : String → Option String)
    (file s3_file : List (String × String)) (fs : FS) (model ver content : String)
    (hm : file.lookup "model" = some model)
    (hv : file.lookup "version" = some ver)
    (hmk : lookupFS fs (dirname model ++ "/version") = some content)
    (hc : substrOf ver content = true)
    (hany : file.any (fun e => !(existsPath fs e.2)) = true)
    (herr : (download_loop net s3_file file fs).err = none) :
    check_file net file s3_file true fs =
      ⟨writeFS (download_loop net s3_file file fs).fs (dirname model ++ "/version") ver,
       (download_loop net s3_file file fs).events
         ++ [.writeMarker (dirname model ++ "/version") ver], none⟩ := by
  rw [check_file_valid_marker_eq net file s3_file fs model ver content hm hv hmk hc]
  simp [hany, herr]

/-- Stale marker, loop raised: deletion happened, then the aborted
loop, and the error propagates. -/
theorem check_file_stale_marker_err (net : String → Option String)
    (file s3_file : List (String × String)) (fs : FS) (model ver content : String)
    (e : Err)
    (hm : file.lookup "model" = some model)
    (hv : file.lookup "version" = some ver)
    (hmk : lookupFS fs (dirname model ++ "/version") = some content)
    (hc : substrOf ver content = false)
    (herr : (download_loop net s3_file file (delete_folder fs (dirname model))).err
      = some e) :
    check_file net file s3_file true fs =
      ⟨(download_loop net s3_file file (delete_folder fs (dirname model))).fs,
       .delete (dirname model)
         :: (download_loop net s3_file file (delete_folder fs (dirname model))).events,
       some e⟩ := by
  rw [check_file_stale_marker_eq net file s3_file fs model ver content hm hv hmk hc, herr]

/-- Stale marker, loop finished: deletion, downloads, marker write. -/
theorem check_file_stale_marker_ok (net : String → Option String)
    (file s3_file : List (String × String)) (fs : FS) (model ver content : String)
    (hm : file.lookup "model" = some model)
    (hv : file.lookup "version" = some ver)
    (hmk : lookupFS fs (dirname model ++ "/version") = some content)
    (hc : substrOf ver content = false)
    (herr : (download_loop net s3_file file (delete_folder fs (dirname model))).err
      = none) :
    check_file net file s3_file true fs =
      ⟨writeFS (download_loop net s3_file file (delete_folder fs (dirname model))).fs
         (dirname model ++ "/version") ver,
       .delete (dirname model)
         :: ((download_loop net s3_file file (delete_folder fs (dirname model))).events
             ++ [.writeMarker (dirname model ++ "/version") ver]), none⟩ := by
  rw [check_file_stale_marker_eq net file s3_file fs model ver content hm hv hmk hc, herr]

/-- Validated run on a manifest without a "model" key: immediate
KeyError, no effects. -/
theorem check_file_no_model_key (net : String → Option String)
    (file s3_file : List (String × String)) (fs : FS)
    (hm : file.lookup "model" = none) :
    check_file net file s3_file true fs = ⟨fs, [], some (.keyError "model")⟩ := by
  simp only [check_file, hm, if_true]

/-- Validated run, marker present, manifest without a "version" key:
KeyError while reading the marker, no effects. -/
theorem check_file_marker_no_version_key (net : String → Option String)
    (file s3_file : List (String × String)) (fs : FS) (model content : String)
    (hm : file.lookup "model" = some model)
    (hmk : lookupFS fs (dirname model ++ "/version") = some content)
    (hv : file.lookup "version" = none) :
    check_file net file s3_file true fs = ⟨fs, [], some (.keyError "version")⟩ := by
  simp only [check_file, hm, if_true, isfile, hmk, Option.isSome_some, hv]

/-- A list of pure fetch events has no marker write. -/
theorem all_not_marker_of_fetch (l : List Event)
    (h : ∀ e ∈ l, e.isFetch = true) :
    l.all (fun ev => !ev.isWriteMarker) = true := by
  rw [List.all_eq_true]
  intro e he
  have := h e he
  cases e <;> simp_all [Event.isFetch, Event.isWriteMarker]

/-! ### Claim theorems -/

/-- Claim C7, counterexample: a manifest whose only key is
"model_version" (a non-version key, distinct from the "version" key)
mapping to an absent file.  The claim demands `check_available = false`;
the code skips every key containing "version" as a substring and returns
true. -/
theorem check_available_substr_key_absent_true :
    check_available [] [("model_version", "c/w")] = true := by decide

/-- Claim C7 (amended): `check_available` returns false iff at least one
key not containing "version" as a substring maps to a file absent from
disk; in particular it returns true when every key contains "version",
and it is a pure predicate. -/
theorem check_available_false_iff_missing (fs : FS)
    (file : List (String × String)) :
    check_available fs file = false ↔
      ∃ p ∈ file, substrOf "version" p.1 = false ∧ isfile fs p.2 = false :=
  check_available_eq_false_iff fs file

/-- Claim C8: a locator containing the marker substring "http" is
fetched as-is, any other locator is appended to the fixed base URL of
the blob store; exactly one of the two resolutions applies, and
`download_file` consults the network only at the resolved URL. -/
theorem download_file_resolution (url : String) :
    ((substrOf "http" url = true ∧ resolve_url url = url) ∨
     (substrOf "http" url = false ∧ resolve_url url = base_url ++ url)) ∧
    ∀ (net net2 : String → Option String) (filename : String) (fs : FS),
      net (resolve_url url) = net2 (resolve_url url) →
      download_file net url filename fs = download_file net2 url filename fs := by
  constructor
  · by_cases h : substrOf "http" url = true
    · exact Or.inl ⟨h, by simp [resolve_url, h]⟩
    · exact Or.inr ⟨by simpa using h, by simp [resolve_url, h]⟩
  · intro net net2 filename fs h
    simp only [download_file, h]

theorem download_file_resolution_witness :
    ((substrOf "http" "m.pb" = true ∧ resolve_url "m.pb" = "m.pb") ∨
     (substrOf "http" "m.pb" = false ∧ resolve_url "m.pb" = base_url ++ "m.pb")) ∧
    ∀ (net net2 : String → Option String) (filename : String) (fs : FS),
      net (resolve_url "m.pb") = net2 (resolve_url "m.pb") →
      download_file net "m.pb" filename fs = download_file net2 "m.pb" filename fs :=
  download_file_resolution "m.pb"

/-- Claim C9: a key containing "version" as a substring is skipped
wholesale by `check_available` and by the download loop of `check_file`:
both behave exactly as if the entry were not in the manifest at all, so
its file is never existence-checked there, never downloaded, and its
absence never makes `check_available` return false. -/
theorem version_substr_key_skipped (net : String → Option String)
    (s3_file : List (String × String)) (fs : FS) (k i : String)
    (rest : List (String × String)) (hk : substrOf "version" k = true) :
    check_available fs ((k, i) :: rest) = check_available fs rest ∧
    download_loop net s3_file ((k, i) :: rest) fs =
      download_loop net s3_file rest fs := by
  constructor
  · simp [check_available, hk]
  · simp [download_loop, hk]

theorem version_substr_key_skipped_witness :
    substrOf "version" "model_version" = true ∧
    (check_available [] [("model_version", "x")] = check_available [] [] ∧
     download_loop (fun _ => none) [] [("model_version", "x")] [] =
       download_loop (fun _ => none) [] [] []) :=
  ⟨by decide,
   version_substr_key_skipped (fun _ => none) [] [] "model_version" "x" [] (by decide)⟩

/-- Claim C10: on a matrix with at least one column (every row of length
`ncols`, `1 ≤ ncols`), `add_neutral` returns a matrix with the same
number of rows, one more column per row, and every row summing to
exactly 1 in exact rational arithmetic. -/
theorem add_neutral_shape_sum (ncols : Nat) (alpha : ℚ) (x : List (List ℚ))
    (_hn : 1 ≤ ncols) (hx : ∀ row ∈ x, row.length = ncols) :
    (add_neutral ncols alpha x).length = x.length ∧
    ∀ row2 ∈ add_neutral ncols alpha x,
      row2.length = ncols + 1 ∧ row2.sum = 1 := by
  constructor
  · simp [add_neutral]
  · intro row2 hmem
    simp only [add_neutral, List.mem_map] at hmem
    obtain ⟨row, hrow, rfl⟩ := hmem
    constructor
    · simp [hx row hrow]
    · rw [List.sum_append, List.sum_singleton]
      ring

theorem add_neutral_shape_sum_witness :
    1 ≤ 2 ∧
    ((add_neutral 2 (1/100) [[(1:ℚ)/2, 1/2]]).length = 1 ∧
     ∀ row2 ∈ add_neutral 2 (1/100) [[(1:ℚ)/2, 1/2]],
       row2.length = 2 + 1 ∧ row2.sum = 1) :=
  ⟨by norm_num,
   add_neutral_shape_sum 2 (1/100) [[(1:ℚ)/2, 1/2]] (by norm_num)
     (by intro row hr; rw [List.mem_singleton] at hr; subst hr; rfl)⟩

/-- Claim C1, evaluation at the failing input.  Manifest
{model: "a/m.pb", version: "1.0"}, file "a/m.pb" on disk, marker
"a/version" on disk with content "1.0x" which contains "1.0".  The claim
demands zero writes and a byte-for-byte unchanged marker.  The run
returns normally and performs no fetch, but because the validity loop
also existence-checks the version entry value "1.0" as a path (which is
not on disk), it sets the download flag and rewrites the marker: one
write event, and the marker content changes from "1.0x" to "1.0". -/
theorem check_file_valid_cache_rewrites_marker :
    (check_file (fun _ => some "blob") [("model", "a/m.pb"), ("version", "1.0")]
        [("model", "m.pb")] true [("a/m.pb", "MODEL"), ("a/version", "1.0x")]).err
      = none ∧
    (check_file (fun _ => some "blob") [("model", "a/m.pb"), ("version", "1.0")]
        [("model", "m.pb")] true [("a/m.pb", "MODEL"), ("a/version", "1.0x")]).events
      = [Event.writeMarker "a/version" "1.0"] ∧
    lookupFS (check_file (fun _ => some "blob") [("model", "a/m.pb"), ("version", "1.0")]
        [("model", "m.pb")] true [("a/m.pb", "MODEL"), ("a/version", "1.0x")]).fs
      "a/version" = some "1.0" := by decide

/-- Claim C2, counterexample: marker absent but the file "a/m.pb"
already on disk.  The claim demands a fetch of every non-version key
regardless of on-disk presence; the run emits no fetch event at all,
only the marker write. -/
theorem check_file_no_marker_skips_present :
    (check_file (fun _ => some "blob") [("model", "a/m.pb"), ("version", "1.0")]
        [("model", "m.pb")] true [("a/m.pb", "OLD")]).events
      = [Event.writeMarker "a/version" "1.0"] := by decide

/-- Claim C2 (amended): when the marker is absent, a validated run that
returns normally fetches exactly the non-version keys whose local file
is absent from disk; keys whose files are already present are not
fetched.  Item paths are assumed pairwise distinct. -/
theorem check_file_no_marker_fetches_missing (net : String → Option String)
    (file s3_file : List (String × String)) (fs : FS) (model k i : String)
    (hm : file.lookup "model" = some model)
    (hmk : isfile fs (dirname model ++ "/version") = false)
    (hnd : (file.map Prod.snd).Nodup)
    (hok : (check_file net file s3_file true fs).err = none)
    (hki : (k, i) ∈ file) (hk : substrOf "version" k = false) :
    (isfile fs i = false →
      ∃ u, Event.fetch k u i ∈ (check_file net file s3_file true fs).events) ∧
    (isfile fs i = true →
      ∀ u, Event.fetch k u i ∉ (check_file net file s3_file true fs).events) := by
  cases herr : (download_loop net s3_file file fs).err with
  | some e =>
    rw [check_file_no_marker_err net file s3_file fs model e hm hmk herr] at hok
    rw [herr] at hok
    exact absurd hok (by simp)
  | none =>
    cases hlv : file.lookup "version" with
    | none =>
      rw [check_file_no_marker_keyerr net file s3_file fs model hm hmk herr hlv] at hok
      exact absurd hok (by simp)
    | some ver =>
      rw [check_file_no_marker_ok net file s3_file fs model ver hm hlv hmk herr]
      constructor
      · intro hi
        obtain ⟨u, hu⟩ :=
          download_loop_fetches_missing net s3_file file fs herr hnd k i hki hk hi
        exact ⟨u, List.mem_append_left _ hu⟩
      · intro hi u hmem
        rcases List.mem_append.mp hmem with h1 | h2
        · exact download_loop_no_fetch_of_present net s3_file file fs i hi k u h1
        · simp at h2

theorem check_file_no_marker_fetches_missing_witness :
    (check_file (fun _ => some "blob") [("model", "a/m.pb"), ("version", "1.0")]
        [("model", "um")] true []).err = none ∧
    ((isfile [] "a/m.pb" = false →
      ∃ u, Event.fetch "model" u "a/m.pb" ∈
        (check_file (fun _ => some "blob") [("model", "a/m.pb"), ("version", "1.0")]
          [("model", "um")] true []).events) ∧
     (isfile [] "a/m.pb" = true →
      ∀ u, Event.fetch "model" u "a/m.pb" ∉
        (check_file (fun _ => some "blob") [("model", "a/m.pb"), ("version", "1.0")]
          [("model", "um")] true []).events)) :=
  ⟨by decide,
   check_file_no_marker_fetches_missing (fun _ => some "blob")
     [("model", "a/m.pb"), ("version", "1.0")] [("model", "um")] []
     "a/m.pb" "model" "a/m.pb" (by decide) (by decide) (by decide) (by decide)
     (by decide) (by decide)⟩

/-- Claim C3, counterexample: the no-write path of a validated run keeps
a marker whose content merely contains the expected version.  Here the
marker holds "xx1.0yy" and a file named "1.0" exists, so the validity
scan finds every item (including the version string taken as a path)
present: the run returns normally and the marker content is still
"xx1.0yy", not exactly "1.0". -/
theorem check_file_marker_substring_not_exact :
    (check_file (fun _ => none) [("model", "a/m.pb"), ("version", "1.0")] [] true
        [("a/m.pb", "M"), ("a/version", "xx1.0yy"), ("1.0", "w")]).err = none ∧
    lookupFS (check_file (fun _ => none) [("model", "a/m.pb"), ("version", "1.0")] [] true
        [("a/m.pb", "M"), ("a/version", "xx1.0yy"), ("1.0", "w")]).fs
      "a/version" = some "xx1.0yy" := by decide

/-- Claim C3 (amended): after any validated run that returns normally,
the marker file exists and its content contains the expected version
string as a substring (it equals it exactly whenever the run performed
the marker write, and may differ only on the no-download path, which
keeps the prior containing content). -/
theorem check_file_ok_marker_contains_version (net : String → Option String)
    (file s3_file : List (String × String)) (fs : FS) (model ver : String)
    (hm : file.lookup "model" = some model)
    (hv : file.lookup "version" = some ver)
    (hok : (check_file net file s3_file true fs).err = none) :
    ∃ c, lookupFS (check_file net file s3_file true fs).fs
          (dirname model ++ "/version") = some c ∧
         substrOf ver c = true := by
  cases hmk : lookupFS fs (dirname model ++ "/version") with
  | none =>
    have hmk2 : isfile fs (dirname model ++ "/version") = false := by
      simp [isfile, hmk]
    cases herr : (download_loop net s3_file file fs).err with
    | some e =>
      rw [check_file_no_marker_err net file s3_file fs model e hm hmk2 herr] at hok
      rw [herr] at hok
      exact absurd hok (by simp)
    | none =>
      rw [check_file_no_marker_ok net file s3_file fs model ver hm hv hmk2 herr]
      exact ⟨ver, lookupFS_writeFS_self _ _ _, substrOf_self ver⟩
  | some content =>
    cases hc : substrOf ver content with
    | true =>
      by_cases hany : file.any (fun e => !(existsPath fs e.2)) = true
      · cases herr : (download_loop net s3_file file fs).err with
        | some e =>
          rw [check_file_valid_marker_err net file s3_file fs model ver content e
            hm hv hmk hc hany herr] at hok
          rw [herr] at hok
          exact absurd hok (by simp)
        | none =>
          rw [check_file_valid_marker_ok net file s3_file fs model ver content
            hm hv hmk hc hany herr]
          exact ⟨ver, lookupFS_writeFS_self _ _ _, substrOf_self ver⟩
      · have hany2 : file.any (fun e => !(existsPath fs e.2)) = false := by
          simpa using hany
        rw [check_file_valid_marker_noop net file s3_file fs model ver content
          hm hv hmk hc hany2]
        exact ⟨content, hmk, hc⟩
    | false =>
      cases herr : (download_loop net s3_file file (delete_folder fs (dirname model))).err with
      | some e =>
        rw [check_file_stale_marker_err net file s3_file fs model ver content e
          hm hv hmk hc herr] at hok
        exact absurd hok (by simp)
      | none =>
        rw [check_file_stale_marker_ok net file s3_file fs model ver content
          hm hv hmk hc herr]
        exact ⟨ver, lookupFS_writeFS_self _ _ _, substrOf_self ver⟩

theorem check_file_ok_marker_contains_version_witness :
    (check_file (fun _ => some "blob") [("model", "a/m.pb"), ("version", "1.0")]
        [("model", "um")] true []).err = none ∧
    ∃ c, lookupFS (check_file (fun _ => some "blob")
          [("model", "a/m.pb"), ("version", "1.0")] [("model", "um")] true []).fs
          (dirname "a/m.pb" ++ "/version") = some c ∧
         substrOf "1.0" c = true :=
  ⟨by decide,
   check_file_ok_marker_contains_version (fun _ => some "blob")
     [("model", "a/m.pb"), ("version", "1.0")] [("model", "um")] []
     "a/m.pb" "1.0" (by decide) (by decide) (by decide)⟩

/-- Claim C4, counterexample: stale marker "0.9" (expected "1.0"), and
a second non-version file "b/v" outside the cache directory "a" that is
present on disk.  The claim demands every non-version file be fetched;
the run deletes "a", re-fetches only "a/m.pb", and never fetches the
"vocab" key because its file survived the deletion. -/
theorem check_file_stale_skips_surviving_file :
    (check_file (fun _ => some "blob")
        [("model", "a/m.pb"), ("vocab", "b/v"), ("version", "1.0")]
        [("model", "um"), ("vocab", "uv")] true
        [("a/version", "0.9"), ("b/v", "X")]).events
      = [Event.delete "a", Event.fetch "model" "um" "a/m.pb",
         Event.writeMarker "a/version" "1.0"] := by decide

/-- Claim C4 (amended): on a stale marker, a validated run that returns
normally deletes the cache directory first (the first event is the
deletion, before any fetch), and then fetches every non-version key
whose file is absent from disk after the deletion.  Item paths are
assumed pairwise distinct. -/
theorem check_file_stale_deletes_then_fetches (net : String → Option String)
    (file s3_file : List (String × String)) (fs : FS)
    (model ver content k i : String)
    (hm : file.lookup "model" = some model)
    (hv : file.lookup "version" = some ver)
    (hmk : lookupFS fs (dirname model ++ "/version") = some content)
    (hc : substrOf ver content = false)
    (hnd : (file.map Prod.snd).Nodup)
    (hok : (check_file net file s3_file true fs).err = none)
    (hki : (k, i) ∈ file) (hk : substrOf "version" k = false)
    (hi : isfile (delete_folder fs (dirname model)) i = false) :
    (check_file net file s3_file true fs).events.head?
      = some (.delete (dirname model)) ∧
    ∃ u, Event.fetch k u i ∈ (check_file net file s3_file true fs).events := by
  cases herr : (download_loop net s3_file file (delete_folder fs (dirname model))).err with
  | some e =>
    rw [check_file_stale_marker_err net file s3_file fs model ver content e
      hm hv hmk hc herr] at hok
    exact absurd hok (by simp)
  | none =>
    rw [check_file_stale_marker_ok net file s3_file fs model ver content
      hm hv hmk hc herr]
    refine ⟨rfl, ?_⟩
    obtain ⟨u, hu⟩ := download_loop_fetches_missing net s3_file file
      (delete_folder fs (dirname model)) herr hnd k i hki hk hi
    exact ⟨u, List.mem_cons_of_mem _ (List.mem_append_left _ hu)⟩

theorem check_file_stale_deletes_then_fetches_witness :
    (check_file (fun _ => some "blob") [("model", "a/m.pb"), ("version", "1.0")]
        [("model", "um")] true [("a/version", "0.9")]).err = none ∧
    ((check_file (fun _ => some "blob") [("model", "a/m.pb"), ("version", "1.0")]
        [("model", "um")] true [("a/version", "0.9")]).events.head?
      = some (.delete (dirname "a/m.pb")) ∧
     ∃ u, Event.fetch "model" u "a/m.pb" ∈
       (check_file (fun _ => some "blob") [("model", "a/m.pb"), ("version", "1.0")]
         [("model", "um")] true [("a/version", "0.9")]).events) :=
  ⟨by decide,
   check_file_stale_deletes_then_fetches (fun _ => some "blob")
     [("model", "a/m.pb"), ("version", "1.0")] [("model", "um")]
     [("a/version", "0.9")] "a/m.pb" "1.0" "0.9" "model" "a/m.pb"
     (by decide) (by decide) (by decide) (by decide) (by decide) (by decide)
     (by decide) (by decide) (by decide)⟩

/-- Any validated run that raises leaves no marker-write event: it can
only have emitted the deletion and fetch events that preceded the
failure. -/
theorem check_file_err_events_no_marker_write (net : String → Option String)
    (file s3_file : List (String × String)) (fs : FS) (e : Err)
    (h : (check_file net file s3_file true fs).err = some e) :
    (check_file net file s3_file true fs).events.all
      (fun ev => !ev.isWriteMarker) = true := by
  cases hm : file.lookup "model" with
  | none => rw [check_file_no_model_key net file s3_file fs hm]; rfl
  | some model =>
    cases hmk : lookupFS fs (dirname model ++ "/version") with
    | none =>
      have hmk2 : isfile fs (dirname model ++ "/version") = false := by
        simp [isfile, hmk]
      cases herr : (download_loop net s3_file file fs).err with
      | some e2 =>
        rw [check_file_no_marker_err net file s3_file fs model e2 hm hmk2 herr]
        exact all_not_marker_of_fetch _ (download_loop_events_fetch net s3_file file fs)
      | none =>
        cases hlv : file.lookup "version" with
        | none =>
          rw [check_file_no_marker_keyerr net file s3_file fs model hm hmk2 herr hlv]
          exact all_not_marker_of_fetch _ (download_loop_events_fetch net s3_file file fs)
        | some ver =>
          rw [check_file_no_marker_ok net file s3_file fs model ver hm hlv hmk2 herr] at h
          exact absurd h (by simp)
    | some content =>
      cases hlv : file.lookup "version" with
      | none =>
        rw [check_file_marker_no_version_key net file s3_file fs model content hm hmk hlv]
        rfl
      | some ver =>
        cases hc : substrOf ver content with
        | true =>
          by_cases hany : file.any (fun p => !(existsPath fs p.2)) = true
          · cases herr : (download_loop net s3_file file fs).err with
            | some e2 =>
              rw [check_file_valid_marker_err net file s3_file fs model ver content e2
                hm hlv hmk hc hany herr]
              exact all_not_marker_of_fetch _ (download_loop_events_fetch net s3_file file fs)
            | none =>
              rw [check_file_valid_marker_ok net file s3_file fs model ver content
                hm hlv hmk hc hany herr] at h
              exact absurd h (by simp)
          · have hany2 : file.any (fun p => !(existsPath fs p.2)) = false := by
              simpa using hany
            rw [check_file_valid_marker_noop net file s3_file fs model ver content
              hm hlv hmk hc hany2] at h
            exact absurd h (by simp)
        | false =>
          cases herr : (download_loop net s3_file file (delete_folder fs (dirname model))).err with
          | some e2 =>
            rw [check_file_stale_marker_err net file s3_file fs model ver content e2
              hm hlv hmk hc herr]
            simp only [List.all_cons]
            refine (Bool.and_eq_true _ _).mpr ⟨rfl, ?_⟩
            exact all_not_marker_of_fetch _
              (download_loop_events_fetch net s3_file file (delete_folder fs (dirname model)))
          | none =>
            rw [check_file_stale_marker_ok net file s3_file fs model ver content
              hm hlv hmk hc herr] at h
            exact absurd h (by simp)

/-- Claim C5: when a validated run raises a download failure, the error
propagates to the caller and no marker write was performed: every emitted
event is a deletion or a fetch, so the expected version string was not
written into the marker; the write happens only after every needed
download completed. -/
theorem check_file_download_failure_no_marker_write (net : String → Option String)
    (file s3_file : List (String × String)) (fs : FS) (u : String)
    (h : (check_file net file s3_file true fs).err = some (.downloadFailure u)) :
    (check_file net file s3_file true fs).events.all
      (fun ev => !ev.isWriteMarker) = true :=
  check_file_err_events_no_marker_write net file s3_file fs _ h

theorem check_file_download_failure_no_marker_write_witness :
    (check_file (fun _ => none) [("model", "a/m.pb"), ("version", "1.0")]
        [("model", "um")] true []).err
      = some (.downloadFailure (base_url ++ "um")) ∧
    (check_file (fun _ => none) [("model", "a/m.pb"), ("version", "1.0")]
        [("model", "um")] true []).events.all (fun ev => !ev.isWriteMarker) = true :=
  ⟨by decide,
   check_file_download_failure_no_marker_write (fun _ => none)
     [("model", "a/m.pb"), ("version", "1.0")] [("model", "um")] []
     (base_url ++ "um") (by decide)⟩

/-- Claim C6, counterexample: with validation disabled, the key
"model_version" (a non-version key) maps to the absent file "c/w", yet
the run returns normally because `check_available` skips every key
containing "version" as a substring. -/
theorem check_file_novalidate_substr_key_no_raise :
    (check_file (fun _ => none)
        [("model", "a/m.pb"), ("version", "1.0"), ("model_version", "c/w")] []
        false [("a/m.pb", "M")]).err = none := by decide

/-- Claim C6 (amended): with validation disabled, the run raises the
cache-unavailable error naming the directory of the "model" entry
(computed by splitting on "/" and dropping the last component) iff some
key not containing "version" as a substring maps to an absent file; in
all cases the filesystem is untouched and no event is emitted. -/
theorem check_file_novalidate_raises_iff (net : String → Option String)
    (file s3_file : List (String × String)) (fs : FS) (model : String)
    (hm : file.lookup "model" = some model) :
    ((check_file net file s3_file false fs).err
        = some (.cacheUnavailable (join_dirname model)) ↔
      ∃ p ∈ file, substrOf "version" p.1 = false ∧ isfile fs p.2 = false) ∧
    (check_file net file s3_file false fs).fs = fs ∧
    (check_file net file s3_file false fs).events = [] := by
  rw [check_file_novalidate_eq net file s3_file fs]
  cases hav : check_available fs file with
  | true =>
    rw [if_pos rfl]
    refine ⟨⟨fun hco => absurd hco (by simp), fun hex => ?_⟩, rfl, rfl⟩
    have := (check_available_eq_false_iff fs file).mpr hex
    rw [hav] at this
    exact absurd this (by simp)
  | false =>
    rw [if_neg (by simp), hm]
    exact ⟨⟨fun _ => (check_available_eq_false_iff fs file).mp hav,
      fun _ => rfl⟩, rfl, rfl⟩

theorem check_file_novalidate_raises_iff_witness :
    (((check_file (fun _ => none) [("model", "a/m.pb"), ("version", "1.0")] []
        false []).err = some (.cacheUnavailable (join_dirname "a/m.pb")) ↔
      ∃ p ∈ [("model", "a/m.pb"), ("version", "1.0")],
        substrOf "version" p.1 = false ∧ isfile ([] : FS) p.2 = false) ∧
     (check_file (fun _ => none) [("model", "a/m.pb"), ("version", "1.0")] []
        false []).fs = [] ∧
     (check_file (fun _ => none) [("model", "a/m.pb"), ("version", "1.0")] []
        false []).events = []) :=
  check_file_novalidate_raises_iff (fun _ => none)
    [("model", "a/m.pb"), ("version", "1.0")] [] [] "a/m.pb" (by decide)

end Malaya
